import Mathlib

/-!
Verification of the clip-ai-studio specification against the code.

The repository's visible code is the Next.js frontend client
(`frontend/app/api.ts`, `frontend/app/page.tsx`, `frontend/app/library/page.tsx`).
The Python backend is not part of the visible sources, so backend behaviour
(clip window computation, library/transcript store, history ordering,
summarization fallback) is modelled from the specification, each such
definition marked `Modelled from the spec:` in its doc comment.

Floats (seconds, timestamps, durations) are embedded as rationals `ℚ`;
byte counts as naturals `ℕ`.
-/

namespace ClipAI

/-- Structure `TranscriptSegment` from `frontend/app/api.ts`: `text`, optional `word`,
`start`, `end`, optional `confidence`. -/
structure TranscriptSegment where
  text : String
  word : Option String := none
  start : ℚ
  «end» : ℚ
  confidence : Option ℚ := none
deriving DecidableEq, Repr

/-- Structure `VideoResponse` from `frontend/app/api.ts`. -/
structure VideoResponse where
  video_filename : String
  video_url : String
  transcript : List TranscriptSegment
deriving DecidableEq, Repr

/-- Structure `ClipResponse` from `frontend/app/api.ts`: `clip_url` and `summary`. -/
structure ClipResponse where
  clip_url : String
  summary : String
deriving DecidableEq, Repr

/-- A JSON-ish value, enough to express the request bodies the client sends. -/
inductive JsonValue where
  | str (s : String)
  | num (q : ℚ)
deriving DecidableEq, Repr

/-- An HTTP POST request as the client assembles it: a path and a JSON
object body given as an ordered list of fields. -/
structure PostRequest where
  path : String
  body : List (String × JsonValue)
deriving DecidableEq, Repr

/-- Ways an axios request can fail (reject): the server answered with a
not-found status, some other error status, or the network failed. -/
inductive HttpFailure where
  | notFound
  | serverError
  | networkError
deriving DecidableEq, Repr

/-- The parsed body of a `GET /transcript/{filename}` response: the
`transcript` field may be present or absent (`res.data.transcript`
may be `undefined`). -/
structure TranscriptBody where
  transcript : Option (List TranscriptSegment)
deriving DecidableEq, Repr

/-- Function `getTranscript` from `frontend/app/api.ts`, as a function of the server
outcome: the `try`/`catch` maps every axios rejection to `[]`, and a
successful response contributes `res.data.transcript || []`.  The client's
promise always resolves (the `catch` swallows the failure), so the result
type is `Except` with the error branch never used. -/
def getTranscript (resp : Except HttpFailure TranscriptBody) :
    Except HttpFailure (List TranscriptSegment) :=
  match resp with
  | .error _ => .ok []
  | .ok body => .ok (body.transcript.getD [])

/-- JavaScript `Math.round` on a nonnegative rational: round half toward
positive infinity, i.e. `⌊x + 1/2⌋`. -/
def jsRound (x : ℚ) : ℤ := ⌊x + 1 / 2⌋

/-- The percentage `uploadVideo` (`frontend/app/api.ts`) reports through the
`onUploadProgress` callback: `Math.round((progressEvent.loaded * 100) /
progressEvent.total)`, with byte counts `loaded` and `total` naturals. -/
def uploadPercent (loaded total : ℕ) : ℤ :=
  jsRound ((loaded * 100 : ℚ) / (total : ℚ))

/-- The request body `extractClip` (`frontend/app/api.ts`) posts to
`/extract-clip`: exactly the fields `video_filename`, `keyword`,
`timestamp`, in that order. -/
def extractClipBody (video_filename keyword : String) (timestamp : ℚ) :
    List (String × JsonValue) :=
  [("video_filename", .str video_filename),
   ("keyword", .str keyword),
   ("timestamp", .num timestamp)]

/-- The full POST request `extractClip` sends. -/
def extractClipRequest (video_filename keyword : String) (timestamp : ℚ) :
    PostRequest :=
  { path := "/extract-clip",
    body := extractClipBody video_filename keyword timestamp }

/-- What `extractClip` does with a successful server response: it returns
`res.data` unchanged as the `ClipResponse`. -/
def extractClipResult (data : ClipResponse) : ClipResponse := data

/-- The fixed clip padding.  Modelled from the spec: `PAD = 7.0` seconds
(fixed constant); the backend that holds it is not among the visible
sources. -/
def PAD : ℚ := 7

/-- Modelled from the spec: the Clip Extraction Engine's window computation
(backend, not among the visible sources): `start = max(0, anchor - PAD)`,
`end = min(duration_seconds, anchor + PAD)`. -/
def clipWindow (duration_seconds anchor : ℚ) : ℚ × ℚ :=
  (max 0 (anchor - PAD), min duration_seconds (anchor + PAD))

/-- The component state of `Home` (`frontend/app/page.tsx`) that
`handleExtractClip` reads: `videoData` (`VideoResponse | null`),
`searchKeyword` (string), `selectedTimestamp` (`number | null`). -/
structure StudioState where
  videoData : Option VideoResponse
  searchKeyword : String
  selectedTimestamp : Option ℚ
deriving DecidableEq, Repr

/-- JavaScript truthiness of `selectedTimestamp : number | null`:
`!selectedTimestamp` is true both for `null` and for `0`. -/
def timestampTruthy : Option ℚ → Bool
  | none => false
  | some q => decide (q ≠ 0)

/-- Function `handleExtractClip` from `frontend/app/page.tsx`: it returns early
(`if (!videoData || !selectedTimestamp || !searchKeyword) return;`) unless
all three are truthy, and otherwise issues the extract-clip request with
the current filename, keyword and timestamp. -/
def handleExtractClip (st : StudioState) : Option PostRequest :=
  match st.videoData, st.selectedTimestamp with
  | some vd, some ts =>
      if timestampTruthy (some ts) && decide (st.searchKeyword ≠ "") then
        some (extractClipRequest vd.video_filename st.searchKeyword ts)
      else none
  | _, _ => none

/-- Source type of an ingested video, from the spec data model. -/
inductive SourceType where
  | youtube
  | upload
deriving DecidableEq, Repr

/-- Modelled from the spec: the backend VideoRecord (the backend is not
among the visible sources): unique `filename`, `source_type`, `source_ref`,
`created_at` timestamp, `duration_seconds`. -/
structure VideoRecord where
  filename : String
  source_type : SourceType
  source_ref : String
  created_at : ℕ
  duration_seconds : ℚ
deriving DecidableEq, Repr

/-- Modelled from the spec: the ephemeral ClipRecord produced per
extraction request. -/
structure ClipRecord where
  source_filename : String
  window_start : ℚ
  window_end : ℚ
  clip_path : String
  summary : String
deriving DecidableEq, Repr

/-- The error taxonomy of the spec. -/
inductive ErrKind where
  | InvalidSource
  | DownloadFailed
  | UnsupportedFormat
  | TranscriptionFailed
  | NotFound
  | OutOfRange
  | SourceRemoved
  | SummarizationFailed
deriving DecidableEq, Repr

/-- Modelled from the spec: the backend store state: registered
VideoRecords, the Transcript Store (filename-keyed), the Media Store keys,
and derived ClipRecords. -/
structure LibState where
  videos : List VideoRecord
  transcripts : List (String × List TranscriptSegment)
  media : List String
  clips : List ClipRecord
deriving DecidableEq, Repr

/-- Lookup of a registered VideoRecord by filename. -/
def lookupVideo : List VideoRecord → String → Option VideoRecord
  | [], _ => none
  | v :: rest, f => if v.filename = f then some v else lookupVideo rest f

/-- Lookup in the Transcript Store. -/
def lookupTranscript :
    List (String × List TranscriptSegment) → String →
      Option (List TranscriptSegment)
  | [], _ => none
  | (g, segs) :: rest, f =>
      if g = f then some segs else lookupTranscript rest f

/-- The per-segment invariant of the spec data model: non-empty `text` and
`0 ≤ start < end ≤ duration_seconds`. -/
def segWF (d : ℚ) (s : TranscriptSegment) : Bool :=
  decide (s.text ≠ "") && decide (0 ≤ s.start) &&
    decide (s.start < s.«end») && decide (s.«end» ≤ d)

/-- Consecutive segments do not overlap:
`segment[i].end ≤ segment[i+1].start`. -/
def segsSeparated : List TranscriptSegment → Bool
  | [] => true
  | [_] => true
  | a :: b :: rest => decide (a.«end» ≤ b.start) && segsSeparated (b :: rest)

/-- The Transcript invariant of the spec data model: every segment
well-formed, and consecutive segments separated. -/
def transcriptWF (d : ℚ) (segs : List TranscriptSegment) : Bool :=
  segs.all (segWF d) && segsSeparated segs

/-- Modelled from the spec: the shared `finalizeIngestion` step (backend):
it persists the Transcript Store entry, creates the VideoRecord and
registers the media bytes; `segs` is the Transcription Engine's output. -/
def registerVideo (st : LibState) (v : VideoRecord)
    (segs : List TranscriptSegment) : LibState :=
  { videos := v :: st.videos,
    transcripts := (v.filename, segs) :: st.transcripts,
    media := v.filename :: st.media,
    clips := st.clips }

/-- Modelled from the spec: `getTranscript(filename) -> Transcript`, which
fails with `NotFound` if the filename is unknown (backend, Library
Manager). -/
def getTranscriptServer (st : LibState) (f : String) :
    Except ErrKind (List TranscriptSegment) :=
  match lookupTranscript st.transcripts f with
  | some segs => .ok segs
  | none => .error .NotFound

/-- Modelled from the spec: `delete(filename)` removes the VideoRecord,
Transcript, Media bytes and any ClipRecords whose `source_filename`
matches; fails with `NotFound` if the filename is not registered. -/
def deleteVideoServer (st : LibState) (f : String) :
    Except ErrKind LibState :=
  match lookupVideo st.videos f with
  | some _ =>
      .ok { videos := st.videos.filter (fun v => v.filename ≠ f),
            transcripts := st.transcripts.filter (fun p => p.1 ≠ f),
            media := st.media.filter (fun m => m ≠ f),
            clips := st.clips.filter (fun c => c.source_filename ≠ f) }
  | none => .error .NotFound

/-- The `list()` ordering relation: `created_at` descending (most recent
first), ties broken by `filename` ascending. -/
def historyLE (a b : VideoRecord) : Prop :=
  b.created_at < a.created_at ∨
    (a.created_at = b.created_at ∧ a.filename ≤ b.filename)

instance : DecidableRel historyLE := fun a b => by
  unfold historyLE
  infer_instance

instance : IsTotal VideoRecord historyLE where
  total a b := by
    unfold historyLE
    rcases Nat.lt_trichotomy a.created_at b.created_at with h | h | h
    · exact Or.inr (Or.inl h)
    · rcases le_total a.filename b.filename with hf | hf
      · exact Or.inl (Or.inr ⟨h, hf⟩)
      · exact Or.inr (Or.inr ⟨h.symm, hf⟩)
    · exact Or.inl (Or.inl h)

instance : IsTrans VideoRecord historyLE where
  trans a b c hab hbc := by
    unfold historyLE at *
    rcases hab with h1 | ⟨h1, hf1⟩
    · rcases hbc with h2 | ⟨h2, _⟩
      · exact Or.inl (h2.trans h1)
      · exact Or.inl (h2 ▸ h1)
    · rcases hbc with h2 | ⟨h2, hf2⟩
      · exact Or.inl (h1 ▸ h2)
      · exact Or.inr ⟨h1.trans h2, hf1.trans hf2⟩

/-- Modelled from the spec: `list()` returns the registered VideoRecords
(read-projected to HistoryItems by the transport layer) ordered by
`created_at` descending with `filename` ascending tie-break. -/
def listHistory (st : LibState) : List VideoRecord :=
  List.insertionSort historyLE st.videos

/-- Transcript text collection per the spec: a segment overlaps the window
`[s, e)` iff `segment.start < e` and `segment.end > s`. -/
def overlapping (s e : ℚ) (segs : List TranscriptSegment) :
    List TranscriptSegment :=
  segs.filter (fun seg => decide (seg.start < e) && decide (s < seg.«end»))

/-- Modelled from the spec: the derived clip filename (a collision-safe
name derived from the source filename; the concrete scheme is not among
the visible sources). -/
def clipFilename (f : String) : String := f ++ ".clip.mp4"

/-- Modelled from the spec: the Clip Extraction Engine
`extractClip(filename, keyword, anchorTimestamp)`, steps 1 to 6.  The
media-cut capability and the Summarization Engine are external
capabilities; the summarizer is a parameter taking the keyword and the
concatenated overlapping transcript text, returning `none` when it
fails, in which case the engine substitutes the empty summary. -/
def extractClipServer (st : LibState) (f keyword : String) (anchor : ℚ)
    (summarize : String → String → Option String) :
    Except ErrKind ClipResponse :=
  match lookupVideo st.videos f with
  | none => .error .NotFound
  | some v =>
    match lookupTranscript st.transcripts f with
    | none => .error .NotFound
    | some segs =>
      if anchor < 0 ∨ v.duration_seconds < anchor then .error .OutOfRange
      else
        let w := clipWindow v.duration_seconds anchor
        let txt :=
          String.join ((overlapping w.1 w.2 segs).map TranscriptSegment.text)
        .ok { clip_url := clipFilename f,
              summary := (summarize keyword txt).getD "" }

/-- The reachable backend states: the empty store; ingestion of a video
under a fresh filename (the spec's collision policy never reuses a
registered filename) whose transcript satisfies the data-model invariant;
and deletion. -/
inductive Reachable : LibState → Prop where
  | init : Reachable ⟨[], [], [], []⟩
  | ingest {st : LibState} {v : VideoRecord} {segs : List TranscriptSegment} :
      Reachable st →
      lookupVideo st.videos v.filename = none →
      transcriptWF v.duration_seconds segs = true →
      Reachable (registerVideo st v segs)
  | delete {st st' : LibState} {f : String} :
      Reachable st → deleteVideoServer st f = .ok st' → Reachable st'

/-- The store invariant: every Transcript Store entry belongs to a
registered VideoRecord and satisfies the Transcript invariant for that
video's duration. -/
def StoreInv (st : LibState) : Prop :=
  ∀ p ∈ st.transcripts,
    ∃ v : VideoRecord, lookupVideo st.videos p.1 = some v ∧
      transcriptWF v.duration_seconds p.2 = true

/-- A sample video record used to exercise the backend model. -/
def sampleVideo : VideoRecord :=
  { filename := "v.mp4", source_type := .upload, source_ref := "orig.mp4",
    created_at := 5, duration_seconds := 10 }

/-- A sample well-formed transcript. -/
def sampleSegs : List TranscriptSegment :=
  [{ text := "hello", start := 0, «end» := 2 },
   { text := "world", start := 3, «end» := 5 }]

/-- A sample backend state holding one ingested video. -/
def sampleState : LibState :=
  registerVideo ⟨[], [], [], []⟩ sampleVideo sampleSegs

end ClipAI

namespace ClipAI

/-- C1: when the server reports the filename as not found (the axios call
rejects with a not-found status), the client `getTranscript` resolves with
the empty segment list instead of surfacing an error. -/
theorem getTranscript_notFound_empty :
    getTranscript (.error .notFound) = .ok [] := rfl

/-- C9: `getTranscript` is total over all server outcomes: every failed
request of any kind resolves with `[]`, a successful response lacking the
`transcript` field resolves with `[]`, and every outcome resolves with
some array of segments (never an error). -/
theorem getTranscript_total :
    (∀ f : HttpFailure, getTranscript (.error f) = .ok []) ∧
    getTranscript (.ok ⟨none⟩) = .ok [] ∧
    ∀ resp : Except HttpFailure TranscriptBody,
      ∃ segs : List TranscriptSegment, getTranscript resp = .ok segs := by
  refine ⟨fun f => rfl, rfl, fun resp => ?_⟩
  cases resp with
  | error f => exact ⟨[], rfl⟩
  | ok body => exact ⟨body.transcript.getD [], rfl⟩

/-- C3: for a fixed positive total, the percentage `uploadVideo` reports is
monotonically non-decreasing in the loaded byte count, and lies in
`[0, 100]` whenever `loaded ≤ total`. -/
theorem uploadPercent_monotone_bounded :
    (∀ l1 l2 total : ℕ, 0 < total → l1 ≤ l2 →
      uploadPercent l1 total ≤ uploadPercent l2 total) ∧
    (∀ loaded total : ℕ, 0 < total → loaded ≤ total →
      0 ≤ uploadPercent loaded total ∧ uploadPercent loaded total ≤ 100) := by
  have htotal : ∀ total : ℕ, 0 < total → (0 : ℚ) < (total : ℚ) := by
    intro total h
    exact_mod_cast h
  constructor
  · intro l1 l2 total h0 hle
    unfold uploadPercent jsRound
    apply Int.floor_le_floor
    have h0q := htotal total h0
    have h1 : ((l1 : ℚ) * 100) / total ≤ ((l2 : ℚ) * 100) / total := by
      apply (div_le_div_iff_of_pos_right h0q).mpr
      have : (l1 : ℚ) ≤ (l2 : ℚ) := by exact_mod_cast hle
      nlinarith
    linarith
  · intro loaded total h0 hle
    have h0q := htotal total h0
    have hv : (0 : ℚ) ≤ ((loaded : ℚ) * 100) / total := by
      apply div_nonneg _ (le_of_lt h0q)
      positivity
    have hub : ((loaded : ℚ) * 100) / total ≤ 100 := by
      rw [div_le_iff₀ h0q]
      have : (loaded : ℚ) ≤ (total : ℚ) := by exact_mod_cast hle
      nlinarith
    constructor
    · unfold uploadPercent jsRound
      apply Int.le_floor.mpr
      push_cast
      linarith
    · unfold uploadPercent jsRound
      have : (((loaded : ℚ) * 100) / total + 1 / 2) ≤ 100 + 1 / 2 := by linarith
      calc ⌊((loaded : ℚ) * 100) / total + 1 / 2⌋
          ≤ ⌊(100 : ℚ) + 1 / 2⌋ := Int.floor_le_floor this
        _ = 100 := by norm_num [Int.floor_eq_iff]

/-- C3 witness: applies the monotonicity part at `l1 = 1, l2 = 3, total = 4`
and the range part at `loaded = 2, total = 4`. -/
theorem uploadPercent_monotone_bounded_witness :
    uploadPercent 1 4 ≤ uploadPercent 3 4 ∧
    (0 ≤ uploadPercent 2 4 ∧ uploadPercent 2 4 ≤ 100) :=
  ⟨uploadPercent_monotone_bounded.1 1 3 4 (by decide) (by decide),
   uploadPercent_monotone_bounded.2 2 4 (by decide) (by decide)⟩

/-- C2: for anchors inside `[0, duration]` the clip window is
`(max 0 (anchor - 7), min duration (anchor + 7))`, satisfies
`0 ≤ start ≤ anchor ≤ end ≤ duration` and `end - start ≤ 14`; and the two
spec examples: anchor 3 on a 5-second video gives `(0, 5)`, anchor 50 on a
100-second video gives `(43, 57)`. -/
theorem clipWindow_spec :
    (∀ d a : ℚ, 0 ≤ a → a ≤ d →
      (clipWindow d a).1 = max 0 (a - 7) ∧
      (clipWindow d a).2 = min d (a + 7) ∧
      0 ≤ (clipWindow d a).1 ∧
      (clipWindow d a).1 ≤ a ∧
      a ≤ (clipWindow d a).2 ∧
      (clipWindow d a).2 ≤ d ∧
      (clipWindow d a).2 - (clipWindow d a).1 ≤ 14) ∧
    clipWindow 5 3 = (0, 5) ∧
    clipWindow 100 50 = (43, 57) := by
  refine ⟨fun d a ha had => ?_, ?_, ?_⟩
  · unfold clipWindow PAD
    refine ⟨rfl, rfl, le_max_left 0 _, max_le ha (by linarith), ?_, min_le_left d _, ?_⟩
    · exact le_min had (by linarith)
    · have h1 : min d (a + 7) ≤ a + 7 := min_le_right d _
      have h2 : a - 7 ≤ max 0 (a - 7) := le_max_right 0 _
      linarith
  · unfold clipWindow PAD
    norm_num
  · unfold clipWindow PAD
    norm_num

/-- C2 witness: applies the quantified part at `duration = 10, anchor = 3`. -/
theorem clipWindow_spec_witness :
    (clipWindow 10 3).1 = max 0 (3 - 7) ∧
    (clipWindow 10 3).2 = min 10 (3 + 7) ∧
    0 ≤ (clipWindow 10 3).1 ∧
    (clipWindow 10 3).1 ≤ 3 ∧
    (3 : ℚ) ≤ (clipWindow 10 3).2 ∧
    (clipWindow 10 3).2 ≤ 10 ∧
    (clipWindow 10 3).2 - (clipWindow 10 3).1 ≤ 14 :=
  clipWindow_spec.1 10 3 (by norm_num) (by norm_num)

/-- C8: the client `extractClip` posts to `/extract-clip` a body consisting
of exactly the three fields `video_filename`, `keyword`, `timestamp` with
the given values, and returns the server's response data unchanged as the
`ClipResponse`. -/
theorem extractClip_request_shape :
    (∀ (v k : String) (t : ℚ),
      (extractClipRequest v k t).path = "/extract-clip" ∧
      (extractClipRequest v k t).body =
        [("video_filename", .str v), ("keyword", .str k),
         ("timestamp", .num t)] ∧
      (extractClipRequest v k t).body.map Prod.fst =
        ["video_filename", "keyword", "timestamp"]) ∧
    ∀ data : ClipResponse, extractClipResult data = data := by
  exact ⟨fun v k t => ⟨rfl, rfl, rfl⟩, fun data => rfl⟩

/-- C10: `handleExtractClip` issues a request only when a video is loaded,
the keyword is non-empty, and the selected timestamp is non-null and
non-zero; in particular a timestamp of exactly `0` never produces a
request. -/
theorem handleExtractClip_guard :
    (∀ (st : StudioState) (r : PostRequest), handleExtractClip st = some r →
      st.videoData ≠ none ∧ st.searchKeyword ≠ "" ∧
      ∃ t : ℚ, st.selectedTimestamp = some t ∧ t ≠ 0) ∧
    ∀ st : StudioState, st.selectedTimestamp = some 0 →
      handleExtractClip st = none := by
  constructor
  · rintro ⟨vd, kw, ts⟩ r h
    simp only [handleExtractClip] at h
    cases vd with
    | none => exact absurd h (by simp)
    | some v =>
      cases ts with
      | none => exact absurd h (by simp)
      | some t =>
        by_cases h1 : t ≠ 0
        · by_cases h2 : kw ≠ ""
          · exact ⟨by simp, h2, t, rfl, h1⟩
          · simp [timestampTruthy, h1, h2] at h
        · simp [timestampTruthy, h1] at h
  · rintro ⟨vd, kw, ts⟩ h
    simp only [StudioState.selectedTimestamp] at h
    subst h
    cases vd with
    | none => rfl
    | some v => simp [handleExtractClip, timestampTruthy]

/-- C10 witness: with a loaded video, keyword `"ai"`, and timestamp exactly
`0`, `handleExtractClip` issues no request. -/
theorem handleExtractClip_guard_witness :
    handleExtractClip
      ⟨some ⟨"v.mp4", "/media/v.mp4", []⟩, "ai", some 0⟩ = none :=
  handleExtractClip_guard.2 ⟨some ⟨"v.mp4", "/media/v.mp4", []⟩, "ai", some 0⟩ rfl

/-- Looking up the deleted key in the filtered video list finds nothing. -/
lemma lookupVideo_filter_self (videos : List VideoRecord) (f : String) :
    lookupVideo (videos.filter (fun v => v.filename ≠ f)) f = none := by
  induction videos with
  | nil => rfl
  | cons v rest ih =>
    rw [List.filter_cons]
    by_cases hv : v.filename = f
    · rw [if_neg (by simp [hv])]
      exact ih
    · rw [if_pos (by simp [hv])]
      show (if v.filename = f then some v else _) = none
      rw [if_neg hv]
      exact ih

/-- Looking up a key other than the deleted one is unchanged by the
filter. -/
lemma lookupVideo_filter_ne (videos : List VideoRecord) {f g : String}
    (h : g ≠ f) :
    lookupVideo (videos.filter (fun v => v.filename ≠ f)) g =
      lookupVideo videos g := by
  induction videos with
  | nil => rfl
  | cons v rest ih =>
    rw [List.filter_cons]
    by_cases hv : v.filename = f
    · have hg : ¬v.filename = g := by
        intro hh
        exact h (by rw [← hh]; exact hv)
      rw [if_neg (by simp [hv])]
      rw [ih]
      show _ = (if v.filename = g then some v else _)
      rw [if_neg hg]
    · rw [if_pos (by simp [hv])]
      show (if v.filename = g then some v else _) =
        (if v.filename = g then some v else _)
      by_cases hg : v.filename = g
      · rw [if_pos hg, if_pos hg]
      · rw [if_neg hg, if_neg hg]
        exact ih

/-- Looking up the deleted key in the filtered Transcript Store finds
nothing. -/
lemma lookupTranscript_filter_self
    (ts : List (String × List TranscriptSegment)) (f : String) :
    lookupTranscript (ts.filter (fun p => p.1 ≠ f)) f = none := by
  induction ts with
  | nil => rfl
  | cons p rest ih =>
    rw [List.filter_cons]
    by_cases hp : p.1 = f
    · rw [if_neg (by simp [hp])]
      exact ih
    · rw [if_pos (by simp [hp])]
      cases p with
      | mk g segs =>
        show (if g = f then some segs else _) = none
        rw [if_neg hp]
        exact ih

/-- A successful Transcript Store lookup comes from a stored pair. -/
lemma lookupTranscript_mem {ts : List (String × List TranscriptSegment)}
    {f : String} {segs : List TranscriptSegment}
    (h : lookupTranscript ts f = some segs) : (f, segs) ∈ ts := by
  induction ts with
  | nil => cases h
  | cons p rest ih =>
    cases p with
    | mk g segs' =>
      by_cases hg : g = f
      · subst hg
        simp [lookupTranscript] at h
        subst h
        exact List.mem_cons_self _ _
      · simp [lookupTranscript, hg] at h
        exact List.mem_cons_of_mem _ (ih h)

/-- The shape of the state a successful delete produces. -/
lemma deleteVideoServer_ok {st st' : LibState} {f : String}
    (h : deleteVideoServer st f = .ok st') :
    st'.videos = st.videos.filter (fun v => v.filename ≠ f) ∧
    st'.transcripts = st.transcripts.filter (fun p => p.1 ≠ f) ∧
    st'.media = st.media.filter (fun m => m ≠ f) ∧
    st'.clips = st.clips.filter (fun c => c.source_filename ≠ f) := by
  unfold deleteVideoServer at h
  cases hv : lookupVideo st.videos f with
  | none => rw [hv] at h; cases h
  | some v =>
    rw [hv] at h
    injection h with h
    subst h
    exact ⟨rfl, rfl, rfl, rfl⟩

/-- Unpacking the separation part of the Transcript invariant into a
chain. -/
lemma segsSeparated_chain :
    ∀ {segs : List TranscriptSegment}, segsSeparated segs = true →
      List.Chain' (fun a b => a.«end» ≤ b.start) segs
  | [], _ => List.chain'_nil
  | [s], _ => List.chain'_singleton s
  | a :: b :: rest, h => by
    simp only [segsSeparated, Bool.and_eq_true, decide_eq_true_eq] at h
    exact List.chain'_cons.mpr ⟨h.1, segsSeparated_chain h.2⟩

/-- Separated segments with positive extent have strictly increasing
starts. -/
lemma starts_strict :
    ∀ {segs : List TranscriptSegment},
      (∀ s ∈ segs, s.start < s.«end») →
      List.Chain' (fun a b => a.«end» ≤ b.start) segs →
      List.Chain' (fun a b => a.start < b.start) segs
  | [], _, _ => List.chain'_nil
  | [s], _, _ => List.chain'_singleton s
  | a :: b :: rest, hlt, hch => by
    have h1 := List.chain'_cons.mp hch
    refine List.chain'_cons.mpr ⟨?_, ?_⟩
    · exact lt_of_lt_of_le (hlt a (by simp)) h1.1
    · exact starts_strict (fun s hs => hlt s (List.mem_cons_of_mem _ hs)) h1.2

/-- Unpacking the Transcript invariant. -/
lemma transcriptWF_props {d : ℚ} {segs : List TranscriptSegment}
    (h : transcriptWF d segs = true) :
    (∀ s ∈ segs, s.text ≠ "" ∧ 0 ≤ s.start ∧ s.start < s.«end» ∧
      s.«end» ≤ d) ∧
    List.Chain' (fun a b => a.«end» ≤ b.start) segs := by
  unfold transcriptWF at h
  rw [Bool.and_eq_true] at h
  constructor
  · intro s hs
    have := (List.all_eq_true.mp h.1) s hs
    unfold segWF at this
    simp only [Bool.and_eq_true, decide_eq_true_eq] at this
    exact ⟨this.1.1.1, this.1.1.2, this.1.2, this.2⟩
  · exact segsSeparated_chain h.2

/-- Rewriting `extractClipServer` when the video is unregistered. -/
lemma extractClipServer_noVideo {st : LibState} {f kw : String} {anchor : ℚ}
    {summarize : String → String → Option String}
    (hv : lookupVideo st.videos f = none) :
    extractClipServer st f kw anchor summarize = .error .NotFound := by
  unfold extractClipServer
  rw [hv]

/-- Rewriting `extractClipServer` when the transcript is missing. -/
lemma extractClipServer_noTranscript {st : LibState} {f kw : String}
    {anchor : ℚ} {summarize : String → String → Option String}
    {v : VideoRecord}
    (hv : lookupVideo st.videos f = some v)
    (hs : lookupTranscript st.transcripts f = none) :
    extractClipServer st f kw anchor summarize = .error .NotFound := by
  unfold extractClipServer
  rw [hv, hs]

/-- Rewriting `extractClipServer` when video and transcript resolve. -/
lemma extractClipServer_found {st : LibState} {f kw : String} {anchor : ℚ}
    {summarize : String → String → Option String} {v : VideoRecord}
    {segs : List TranscriptSegment}
    (hv : lookupVideo st.videos f = some v)
    (hs : lookupTranscript st.transcripts f = some segs) :
    extractClipServer st f kw anchor summarize =
      if anchor < 0 ∨ v.duration_seconds < anchor then .error .OutOfRange
      else
        .ok { clip_url := clipFilename f,
              summary :=
                (summarize kw (String.join
                  ((overlapping (clipWindow v.duration_seconds anchor).1
                    (clipWindow v.duration_seconds anchor).2 segs).map
                      TranscriptSegment.text))).getD "" } := by
  unfold extractClipServer
  rw [hv, hs]

/-- Every reachable backend state satisfies the store invariant. -/
lemma storeInv_reachable {st : LibState} (h : Reachable st) : StoreInv st := by
  induction h with
  | init => intro p hp; cases hp
  | @ingest st v segs hr hfresh hwf ih =>
    intro p hp
    rcases List.mem_cons.mp hp with heq | hmem
    · subst heq
      refine ⟨v, ?_, hwf⟩
      simp [registerVideo, lookupVideo]
    · obtain ⟨v', hv', hwf'⟩ := ih p hmem
      refine ⟨v', ?_, hwf'⟩
      have hne : v.filename ≠ p.1 := by
        intro hh
        rw [hh] at hfresh
        rw [hfresh] at hv'
        cases hv'
      simp [registerVideo, lookupVideo, hne, hv']
  | @delete st st' f hr hdel ih =>
    obtain ⟨hv, ht, _, _⟩ := deleteVideoServer_ok hdel
    intro p hp
    rw [ht] at hp
    have hp' := List.mem_filter.mp hp
    have hne : p.1 ≠ f := by simpa using hp'.2
    obtain ⟨v', hv', hwf'⟩ := ih p hp'.1
    refine ⟨v', ?_, hwf'⟩
    rw [hv, lookupVideo_filter_ne _ hne]
    exact hv'

/-- C4: every transcript a reachable backend state serves belongs to a
registered video and satisfies the data-model invariant: non-empty text,
`0 ≤ start < end ≤ duration_seconds` per segment, non-overlapping
consecutive segments (`segment[i].end ≤ segment[i+1].start`), and
(strictly) non-decreasing starts. -/
theorem transcript_invariant :
    ∀ st : LibState, Reachable st →
      ∀ (f : String) (segs : List TranscriptSegment),
        getTranscriptServer st f = .ok segs →
        ∃ v : VideoRecord, lookupVideo st.videos f = some v ∧
          (∀ s ∈ segs, s.text ≠ "" ∧ 0 ≤ s.start ∧ s.start < s.«end» ∧
            s.«end» ≤ v.duration_seconds) ∧
          List.Chain' (fun a b => a.«end» ≤ b.start) segs ∧
          List.Chain' (fun a b => a.start < b.start) segs := by
  intro st hreach f segs hget
  have hinv := storeInv_reachable hreach
  have hlk : lookupTranscript st.transcripts f = some segs := by
    unfold getTranscriptServer at hget
    cases hcase : lookupTranscript st.transcripts f with
    | none => rw [hcase] at hget; cases hget
    | some s2 =>
      rw [hcase] at hget
      injection hget with h2
      exact congrArg some h2
  obtain ⟨v, hv, hwf⟩ := hinv (f, segs) (lookupTranscript_mem hlk)
  have hp := transcriptWF_props hwf
  exact ⟨v, hv, hp.1, hp.2,
    starts_strict (fun s hs => (hp.1 s hs).2.2.1) hp.2⟩

/-- C4 witness: the sample state is reachable and serves the sample
transcript, which the theorem certifies well-formed. -/
theorem transcript_invariant_witness :
    ∃ v : VideoRecord, lookupVideo sampleState.videos "v.mp4" = some v ∧
      (∀ s ∈ sampleSegs, s.text ≠ "" ∧ 0 ≤ s.start ∧ s.start < s.«end» ∧
        s.«end» ≤ v.duration_seconds) ∧
      List.Chain' (fun a b => a.«end» ≤ b.start) sampleSegs ∧
      List.Chain' (fun a b => a.start < b.start) sampleSegs :=
  transcript_invariant sampleState
    (Reachable.ingest Reachable.init rfl (by decide)) "v.mp4" sampleSegs rfl

/-- C5: after a successful delete of `f`, no listed history item carries
the filename `f`, `getTranscript f` reports `NotFound`, and every
`extractClip` on `f` fails with a typed `NotFound` or `SourceRemoved`
error (never an untyped fault: the engine is a total function into
`Except`). -/
theorem delete_removes :
    ∀ (st st' : LibState) (f : String),
      deleteVideoServer st f = .ok st' →
      (∀ v ∈ listHistory st', v.filename ≠ f) ∧
      getTranscriptServer st' f = .error .NotFound ∧
      ∀ (kw : String) (anchor : ℚ) (s : String → String → Option String),
        ∃ k : ErrKind, extractClipServer st' f kw anchor s = .error k ∧
          (k = ErrKind.NotFound ∨ k = ErrKind.SourceRemoved) := by
  intro st st' f h
  obtain ⟨hv, ht, _, _⟩ := deleteVideoServer_ok h
  refine ⟨?_, ?_, ?_⟩
  · intro v hvmem
    have hmem : v ∈ st'.videos :=
      (List.perm_insertionSort historyLE st'.videos).mem_iff.mp hvmem
    rw [hv] at hmem
    simpa using (List.mem_filter.mp hmem).2
  · unfold getTranscriptServer
    rw [ht, lookupTranscript_filter_self]
  · intro kw anchor s
    refine ⟨.NotFound, ?_, Or.inl rfl⟩
    apply extractClipServer_noVideo
    rw [hv]
    exact lookupVideo_filter_self _ _

/-- C5 witness: deleting the only video of the sample state empties the
store; the theorem's three consequences hold of the emptied state. -/
theorem delete_removes_witness :
    (∀ v ∈ listHistory ⟨[], [], [], []⟩, v.filename ≠ "v.mp4") ∧
    getTranscriptServer ⟨[], [], [], []⟩ "v.mp4" = .error .NotFound ∧
    ∀ (kw : String) (anchor : ℚ) (s : String → String → Option String),
      ∃ k : ErrKind,
        extractClipServer ⟨[], [], [], []⟩ "v.mp4" kw anchor s = .error k ∧
        (k = ErrKind.NotFound ∨ k = ErrKind.SourceRemoved) :=
  delete_removes sampleState ⟨[], [], [], []⟩ "v.mp4" rfl

/-- C6: summarization failure never fails the extraction: with the failing
summarizer the engine succeeds exactly when it succeeds with any other
summarizer, and whenever extraction succeeds at all, the failing-summarizer
run returns the same valid `clip_url` together with the empty summary. -/
theorem summarization_failure_graceful :
    (∀ (st : LibState) (f kw : String) (anchor : ℚ)
        (s : String → String → Option String),
      (extractClipServer st f kw anchor (fun _ _ => none)).isOk =
        (extractClipServer st f kw anchor s).isOk) ∧
    ∀ (st : LibState) (f kw : String) (anchor : ℚ)
        (s : String → String → Option String) (resp : ClipResponse),
      extractClipServer st f kw anchor s = .ok resp →
      extractClipServer st f kw anchor (fun _ _ => none) =
        .ok { clip_url := resp.clip_url, summary := "" } := by
  constructor
  · intro st f kw anchor s
    cases hv : lookupVideo st.videos f with
    | none => rw [extractClipServer_noVideo hv, extractClipServer_noVideo hv]
    | some v =>
      cases hs : lookupTranscript st.transcripts f with
      | none =>
        rw [extractClipServer_noTranscript hv hs,
          extractClipServer_noTranscript hv hs]
      | some segs =>
        rw [extractClipServer_found hv hs, extractClipServer_found hv hs]
        by_cases hr : anchor < 0 ∨ v.duration_seconds < anchor
        · rw [if_pos hr, if_pos hr]
        · rw [if_neg hr, if_neg hr]
          rfl
  · intro st f kw anchor s resp h
    cases hv : lookupVideo st.videos f with
    | none => rw [extractClipServer_noVideo hv] at h; cases h
    | some v =>
      cases hs : lookupTranscript st.transcripts f with
      | none => rw [extractClipServer_noTranscript hv hs] at h; cases h
      | some segs =>
        rw [extractClipServer_found hv hs] at h
        rw [extractClipServer_found hv hs]
        by_cases hr : anchor < 0 ∨ v.duration_seconds < anchor
        · rw [if_pos hr] at h; cases h
        · rw [if_neg hr] at h
          rw [if_neg hr]
          injection h with h
          subst h
          rfl

/-- Resolving the sample video in the sample state. -/
lemma sampleLookupVideo :
    lookupVideo sampleState.videos "v.mp4" = some sampleVideo := rfl

/-- Resolving the sample transcript in the sample state. -/
lemma sampleLookupTranscript :
    lookupTranscript sampleState.transcripts "v.mp4" = some sampleSegs := rfl

/-- A concrete successful extraction on the sample state with an echoing
summarizer. -/
lemma sampleExtract_ok :
    extractClipServer sampleState "v.mp4" "kw" 3 (fun _ t => some t) =
      .ok { clip_url := "v.mp4.clip.mp4", summary := "helloworld" } := by
  rw [extractClipServer_found sampleLookupVideo sampleLookupTranscript]
  rw [if_neg (by norm_num [sampleVideo])]
  have hw : clipWindow sampleVideo.duration_seconds 3 = (0, 10) := by
    norm_num [clipWindow, PAD, sampleVideo]
  rw [hw]
  have hov : overlapping (0:ℚ) 10 sampleSegs = sampleSegs := by decide
  dsimp only
  rw [hov]
  rfl

/-- C6 witness: on the sample state the extraction succeeds with a working
summarizer, and with the failing summarizer still returns the same
`clip_url` and the empty summary. -/
theorem summarization_failure_graceful_witness :
    extractClipServer sampleState "v.mp4" "kw" 3 (fun _ _ => none) =
      .ok { clip_url := "v.mp4.clip.mp4", summary := "" } :=
  summarization_failure_graceful.2 sampleState "v.mp4" "kw" 3
    (fun _ t => some t) ⟨"v.mp4.clip.mp4", "helloworld"⟩ sampleExtract_ok

/-- C7: `list()` is sorted by `created_at` descending with ties broken by
`filename` ascending (a total relation), returns exactly the registered
videos, and is stable across repeated calls on an unchanged state. -/
theorem listHistory_ordered :
    (∀ st : LibState, List.Sorted historyLE (listHistory st)) ∧
    (∀ st : LibState, List.Perm (listHistory st) st.videos) ∧
    (∀ a b : VideoRecord, historyLE a b ∨ historyLE b a) ∧
    (∀ st : LibState, listHistory st = listHistory st) :=
  ⟨fun st => List.sorted_insertionSort historyLE st.videos,
   fun st => List.perm_insertionSort historyLE st.videos,
   fun a b => IsTotal.total a b,
   fun _ => rfl⟩

end ClipAI
